import Mathlib

/-!
Shallow embedding of the JWST observation ingestion pipeline
(`src/jobs/fetch_jwst_data.py`, with the storage schema of `src/db/models.py`).

Conventions of the embedding:
* Python scalar values flowing out of the archive tables are modelled by
  `RawVal`; numeric scalars are modelled as exact rationals (`Rat`), since the
  analysed properties are threshold comparisons, truthiness against zero and
  unit rescaling, none of which depend on IEEE rounding.
* Python exceptions are modelled by `Except Unit`; a `bare except` that skips a
  row is an explicit `match` on the `Except`.
* The database table is a list of `Record`s; the `unique=True` constraint on
  `obs_id` (models.py line 13) is enforced at commit time.
* `datetime` values derived from an MJD number are represented by that number
  (the conversion MJD -> datetime is injective); wall-clock timestamps
  (`datetime.now(UTC)`, column defaults) are modelled by a `Nat` tick supplied
  as a parameter.
-/

instance {ε α : Type} [DecidableEq ε] [DecidableEq α] : DecidableEq (Except ε α) :=
  fun a b =>
    match a, b with
    | .ok x, .ok y => decidable_of_iff (x = y) (by simp)
    | .error x, .error y => decidable_of_iff (x = y) (by simp)
    | .ok _, .error _ => isFalse (by simp)
    | .error _, .ok _ => isFalse (by simp)

/-- Archive-native scalar value: `None`, a masked value, a wrapped numpy
scalar (with `.item()`), a plain number, or a plain string. -/
inductive RawVal where
  | null
  | masked (v : RawVal)
  | npScalar (v : RawVal)
  | num (q : Rat)
  | str (s : String)
  deriving DecidableEq, Repr

/-- Python truthiness of a `RawVal`: `None`, the masked constant, `0` and `""`
are falsy; a numpy scalar is as truthy as its payload. -/
def truthy : RawVal → Bool
  | .null => false
  | .masked _ => false
  | .npScalar v => truthy v
  | .num q => decide (q ≠ 0)
  | .str s => decide (s ≠ "")

/-- `clean_value` (fetch_jwst_data.py lines 106-117): `None` stays `None`, a
masked value becomes `None`, a wrapped scalar is unwrapped via `.item()`,
anything else is returned unchanged. -/
def clean_value : RawVal → RawVal
  | .null => .null
  | .masked _ => .null
  | .npScalar v => v
  | .num q => .num q
  | .str s => .str s

/-- Python `a or b`: `a` if truthy, else `b`. -/
def pyOr (a b : RawVal) : RawVal := if truthy a then a else b

/-! ### Python numeric coercions

`float(...)` / `int(...)` as used by the job: total on numbers, raising on
unparseable strings and on `None`.  String parsing follows the Python float
literal grammar on ordinary decimal literals (optional sign, digits with an
optional fraction, optional exponent); `inf` / `nan` / underscore separators
are outside the analysed value domain and are not modelled. -/

/-- Numeric value of a list of decimal digit characters. -/
def digitsVal (cs : List Char) : Nat := cs.foldl (fun a c => a * 10 + (c.toNat - 48)) 0

def allDigits (cs : List Char) : Bool := !cs.isEmpty && cs.all Char.isDigit

def isSpaceChar (c : Char) : Bool := c = ' ' || c = '\t' || c = '\n' || c = '\r'

def trimChars (cs : List Char) : List Char :=
  ((cs.dropWhile isSpaceChar).reverse.dropWhile isSpaceChar).reverse

def parseSign : List Char → (Int × List Char)
  | '-' :: rest => (-1, rest)
  | '+' :: rest => (1, rest)
  | cs => (1, cs)

/-- Split a character list at the first `e`/`E` (exponent marker). -/
def splitExp : List Char → (List Char × Option (List Char))
  | [] => ([], none)
  | c :: rest =>
    if c = 'e' ∨ c = 'E' then ([], some rest)
    else
      let p := splitExp rest
      (c :: p.1, p.2)

/-- Mantissa of a float literal: `digits`, `digits.digits`, `.digits` or
`digits.` (at least one digit in total). -/
def parseMantissa (cs : List Char) : Option Rat :=
  let intPart := cs.takeWhile Char.isDigit
  let rest := cs.dropWhile Char.isDigit
  match rest with
  | [] => if intPart.isEmpty then none else some ((digitsVal intPart : Int) : Rat)
  | '.' :: rest2 =>
    let fracPart := rest2.takeWhile Char.isDigit
    let rest3 := rest2.dropWhile Char.isDigit
    if !rest3.isEmpty then none
    else if intPart.isEmpty && fracPart.isEmpty then none
    else some (((digitsVal intPart : Int) : Rat) +
               ((digitsVal fracPart : Int) : Rat) / ((10 : Rat) ^ fracPart.length))
  | _ => none

/-- Python `float(s)` on a string, as an exact rational; `none` models a
`ValueError`. -/
def pyFloatOfString (s : String) : Option Rat :=
  let cs := trimChars s.toList
  let sgn := parseSign cs
  let parts := splitExp sgn.2
  match parseMantissa parts.1 with
  | none => none
  | some m =>
    match parts.2 with
    | none => some ((sgn.1 : Rat) * m)
    | some ecs =>
      let esgn := parseSign ecs
      if allDigits esgn.2 then
        let n := digitsVal esgn.2
        some ((sgn.1 : Rat) * m *
              (if esgn.1 = 1 then (10 : Rat) ^ n else 1 / ((10 : Rat) ^ n)))
      else none

/-- Python `int(s)` on a string: optional sign followed by digits only
(`int("3.5")` raises). -/
def pyIntOfString (s : String) : Option Int :=
  let cs := trimChars s.toList
  let sgn := parseSign cs
  if allDigits sgn.2 then some (sgn.1 * (digitsVal sgn.2 : Int)) else none

/-- Truncation toward zero, the semantics of Python `int(float)`. -/
def pyTrunc (q : Rat) : Int := if q < 0 then -(Int.floor (-q)) else Int.floor q

/-- Python `float(v)`: identity on numbers, literal parsing on strings,
unwrapping on numpy scalars, raising otherwise. -/
def pyFloat : RawVal → Except Unit Rat
  | .num q => .ok q
  | .str s => match pyFloatOfString s with | some q => .ok q | none => .error ()
  | .npScalar v => pyFloat v
  | _ => .error ()

/-- Python `int(v)`. -/
def pyInt : RawVal → Except Unit Int
  | .num q => .ok (pyTrunc q)
  | .str s => match pyIntOfString s with | some n => .ok n | none => .error ()
  | .npScalar v => pyInt v
  | _ => .error ()

/-- Python `str(v)`.  Only the string case is ever observed by the analysed
properties; the rendering of the other cases is approximate and total. -/
def pyStr : RawVal → String
  | .null => "None"
  | .num q => if q.den = 1 then toString q.num else toString q
  | .str s => s
  | .npScalar v => pyStr v
  | .masked _ => "--"

/-! ### Character-level string operations

Kernel-friendly models of Python `.startswith`, `.endswith`, `.lower`,
`.upper` and the substring test `in`, written over `List Char`. -/

def strLower (s : String) : String := String.mk (s.toList.map Char.toLower)

def strUpper (s : String) : String := String.mk (s.toList.map Char.toUpper)

def strStarts (s pat : String) : Bool := pat.toList.isPrefixOf s.toList

def strEnds (s pat : String) : Bool := pat.toList.reverse.isPrefixOf s.toList.reverse

/-- Python `pat in s` (substring occurrence). -/
def subOccursAux (pat : List Char) : List Char → Bool
  | [] => pat.isEmpty
  | c :: rest => pat.isPrefixOf (c :: rest) || subOccursAux pat rest

def subOccurs (pat s : String) : Bool := subOccursAux pat.toList s.toList

/-- `.upper()` on a cleaned value: only strings respond (an `AttributeError`
on anything else). -/
def pyUpper : RawVal → Except Unit String
  | .str s => .ok (strUpper s)
  | _ => .error ()

/-! ### Product resolution (fetch_jwst_data.py lines 120-159, 271-284)

A candidate file descriptor from the product-listing call.  `dataRights` is
the archive's visibility flag; it is part of the candidate data but — as the
analysis shows — never read by the selection code. -/

structure RawProduct where
  jpegURL : Option String := none
  pngURL : Option String := none
  dataURI : Option String := none
  dataproduct_type : Option String := none
  productFilename : Option String := none
  dataURL : Option String := none
  dataRights : Option String := none
  deriving DecidableEq, Repr

/-- Truthiness of a `prod.get(...)` result. -/
def otruthy : Option String → Bool
  | none => false
  | some s => decide (s ≠ "")

/-- `mast_to_public_url` (lines 120-130): falsy input gives `None`; an
`http...` location passes through; a `mast:` URI and a bare filename with a
known extension are rewritten to the download endpoint. -/
def mast_to_public_url : Option String → Option String
  | none => none
  | some s =>
    if s = "" then none
    else if strStarts s "http" then some s
    else if strStarts s "mast:" then
      some ("https://mast.stsci.edu/api/v0.1/Download/file?uri=" ++ s)
    else if strEnds (strLower s) ".fits" || strEnds (strLower s) ".jpg" ||
            strEnds (strLower s) ".jpeg" || strEnds (strLower s) ".png" then
      some ("https://mast.stsci.edu/api/v0.1/Download/file?uri=mast:JWST/product/" ++ s)
    else none

/-- `extract_preview_url` (lines 133-145). -/
def extract_preview_url (prod : RawProduct) : Option String :=
  if otruthy prod.jpegURL then mast_to_public_url prod.jpegURL
  else if otruthy prod.pngURL then mast_to_public_url prod.pngURL
  else if otruthy prod.dataURI && decide (prod.dataproduct_type = some "image") then
    mast_to_public_url prod.dataURI
  else if otruthy prod.productFilename then mast_to_public_url prod.productFilename
  else none

/-- One candidate of `extract_fits_url`: truthy and `.lower().endswith(".fits")`. -/
def fitsCandidate (o : Option String) : Bool :=
  otruthy o && (match o with | some s => strEnds (strLower s) ".fits" | none => false)

/-- `extract_fits_url` (lines 148-159). -/
def extract_fits_url (prod : RawProduct) : Option String :=
  if fitsCandidate prod.dataURI then mast_to_public_url prod.dataURI
  else if fitsCandidate prod.productFilename then mast_to_public_url prod.productFilename
  else if fitsCandidate prod.dataURL then mast_to_public_url prod.dataURL
  else none

/-- The URL-selection loop of `fetch_month` (lines 271-280): take the first
truthy preview and the first truthy FITS url, early exit once both found. -/
def select_urls : List RawProduct → Option String → Option String →
    Option String × Option String
  | [], p, f => (p, f)
  | prod :: rest, p, f =>
    let p2 := if otruthy p then p else extract_preview_url prod
    let f2 := if otruthy f then f else extract_fits_url prod
    if otruthy p2 && otruthy f2 then (p2, f2) else select_urls rest p2 f2

/-! ### Raw observation rows and metadata construction -/

/-- One raw observation row, with archive-native field names (the fields the
job reads). -/
structure RawObs where
  obsid : RawVal := .null
  obs_id : RawVal := .null
  target_name : RawVal := .null
  s_ra : RawVal := .null
  s_dec : RawVal := .null
  instrument_name : RawVal := .null
  filters : RawVal := .null
  t_min : RawVal := .null
  obs_title : RawVal := .null
  proposal_id : RawVal := .null
  t_exptime : RawVal := .null
  dataproduct_type : RawVal := .null
  calib_level : RawVal := .null
  wavelength_region : RawVal := .null
  proposal_pi : RawVal := .null
  target_classification : RawVal := .null
  em_res_power : RawVal := .null
  em_min : RawVal := .null
  em_max : RawVal := .null
  deriving DecidableEq, Repr

/-- A stored row of the `observations` table (models.py lines 8-42).
`observation_date` holds the MJD number the stored datetime was derived
from; `created_at` / `updated_at` hold the wall-clock tick. -/
structure Record where
  obs_id : RawVal
  target_name : RawVal := .null
  ra : Option Rat := none
  dec : Option Rat := none
  instrument : RawVal := .null
  filter_name : RawVal := .null
  observation_date : Option Rat := none
  preview_url : Option String := none
  fits_url : Option String := none
  description : RawVal := .null
  proposal_id : Option String := none
  exposure_time : Option Rat := none
  dataproduct_type : RawVal := .null
  calib_level : Option Int := none
  wavelength_region : RawVal := .null
  pi_name : RawVal := .null
  target_classification : RawVal := .null
  spectral_resolution : Option Rat := none
  wavelength_min : Option Rat := none
  wavelength_max : Option Rat := none
  grating : Option RawVal := none
  dispersion_axis : Option Int := none
  slit_width : Option Rat := none
  created_at : Nat := 0
  updated_at : Nat := 0
  deriving DecidableEq, Repr

/-- `float(x) if x else None` — the guarded coercion pattern of the metadata
dict (lines 302-311). -/
def condFloat (v : RawVal) : Except Unit (Option Rat) :=
  if truthy v then
    match pyFloat v with
    | .ok q => .ok (some q)
    | .error e => .error e
  else .ok none

/-- `int(x) if x else None` (line 313). -/
def condInt (v : RawVal) : Except Unit (Option Int) :=
  if truthy v then
    match pyInt v with
    | .ok n => .ok (some n)
    | .error e => .error e
  else .ok none

/-- The observation-date parse (lines 287-293): guarded by truthiness of
`t_min`, the `Time(..., format=mjd)` conversion wrapped in `try/except`, so a
malformed value yields `None` rather than an error. -/
def parse_obs_date (v : RawVal) : Option Rat :=
  if truthy v then
    match pyFloat v with
    | .ok q => some q
    | .error _ => none
  else none

/-- The wavelength unit heuristic (lines 177, 181), shared verbatim by
`em_min` and `em_max`: values below `0.001` are rescaled from meters to
microns. -/
def convert_wl (q : Rat) : Rat := if q < 0.001 then q * 1000000 else q

/-- One wavelength bound of `extract_spectrum_metadata` (lines 174-181). -/
def wl_field (v : RawVal) : Except Unit (Option Rat) :=
  if truthy v then
    match pyFloat v with
    | .ok q => .ok (some (convert_wl q))
    | .error e => .error e
  else .ok none

def grating_keywords : List String := ["PRISM", "G140", "G235", "G395", "G150", "G235"]

/-- The grating detection of `extract_spectrum_metadata` (lines 183-191):
keep the cleaned `filters` value when any keyword occurs in its upper-cased
form. -/
def grating_field (filters : RawVal) : Except Unit (Option RawVal) :=
  if truthy filters then
    match pyUpper filters with
    | .ok up =>
      .ok (if grating_keywords.any (fun k => subOccurs k up) then some filters else none)
    | .error e => .error e
  else .ok none

/-- Spectrum-specific metadata (the result of `extract_spectrum_metadata`). -/
structure SpecMeta where
  spectral_resolution : Option Rat := none
  wavelength_min : Option Rat := none
  wavelength_max : Option Rat := none
  grating : Option RawVal := none
  deriving DecidableEq, Repr

/-- `extract_spectrum_metadata` (lines 162-193). -/
def extract_spectrum_metadata (obs : RawObs) : Except Unit SpecMeta :=
  match condFloat obs.em_res_power, wl_field obs.em_min, wl_field obs.em_max,
        grating_field (clean_value obs.filters) with
  | .ok sr, .ok wmin, .ok wmax, .ok g =>
    .ok { spectral_resolution := sr, wavelength_min := wmin, wavelength_max := wmax,
          grating := g }
  | _, _, _, _ => .error ()

/-- The base metadata dict of `fetch_month` (lines 299-318), given the four
already-coerced numeric fields. -/
def base_record (obs : RawObs) (obsid : RawVal) (preview fits : Option String)
    (now : Nat) (ra dec texp : Option Rat) (clv : Option Int) : Record :=
  { obs_id := obsid
    target_name := clean_value obs.target_name
    ra := ra
    dec := dec
    instrument := clean_value obs.instrument_name
    filter_name := clean_value obs.filters
    observation_date := parse_obs_date obs.t_min
    preview_url := preview
    fits_url := fits
    description := clean_value obs.obs_title
    proposal_id := if truthy obs.proposal_id then some (pyStr obs.proposal_id) else none
    exposure_time := texp
    dataproduct_type := clean_value obs.dataproduct_type
    calib_level := clv
    wavelength_region := clean_value obs.wavelength_region
    pi_name := clean_value obs.proposal_pi
    target_classification := clean_value obs.target_classification
    created_at := now
    updated_at := now }

/-- The `metadata.update(...)` of lines 323-330. -/
def add_spectrum (r : Record) (sm : SpecMeta) : Record :=
  { r with
    spectral_resolution := sm.spectral_resolution
    wavelength_min := sm.wavelength_min
    wavelength_max := sm.wavelength_max
    grating := sm.grating
    dispersion_axis := none
    slit_width := none }

/-- The metadata construction of `fetch_month` (lines 286-330): the base
dict, plus the spectrum-only fields when `dataproduct_type == "spectrum"`.
Uncaught coercion failures (`float`/`int` on unparseable truthy values)
surface as `.error`. -/
def build_metadata (obs : RawObs) (obsid : RawVal) (preview fits : Option String)
    (now : Nat) : Except Unit Record :=
  match condFloat obs.s_ra, condFloat obs.s_dec, condFloat obs.t_exptime,
        condInt obs.calib_level with
  | .ok ra, .ok dec, .ok texp, .ok clv =>
    if clean_value obs.dataproduct_type = .str "spectrum" then
      match extract_spectrum_metadata obs with
      | .ok sm => .ok (add_spectrum (base_record obs obsid preview fits now ra dec texp clv) sm)
      | .error e => .error e
    else .ok (base_record obs obsid preview fits now ra dec texp clv)
  | _, _, _, _ => .error ()

/-! ### The fetch loop of `fetch_month` (lines 200-345) -/

/-- The remote archive, as a deterministic environment.  Each endpoint is an
oracle indexed by attempt number, so that retry behaviour (or its absence)
is observable: the code consults only index `0`. -/
structure Remote where
  catalog : Nat → Except Unit (List RawObs)
  products : RawObs → Nat → Except Unit (List RawProduct)

/-- The committed contents of the `observations` table. -/
abbrev Store := List Record

/-- `clean_value(obs.get("obsid") or obs.get("obs_id"))` (line 250). -/
def obs_key (obs : RawObs) : RawVal := clean_value (pyOr obs.obsid obs.obs_id)

/-- The body of the per-observation loop (lines 247-335), up to the point
where a record is handed to the session: `.ok none` is a `continue`
(skipped row), `.ok (some r)` is `db.add`, `.error` is an uncaught
exception that aborts the run. -/
def row_action (existing : List RawVal) (remote : Remote) (now : Nat)
    (obs : RawObs) : Except Unit (Option Record) :=
  if truthy (obs_key obs) then
    if obs_key obs ∈ existing then .ok none
    else
      match remote.products obs 0 with
      | .error _ => .ok none
      | .ok products =>
        if products.length = 0 then .ok none
        else
          if !otruthy (select_urls products none none).1 &&
             !otruthy (select_urls products none none).2 then .ok none
          else
            match build_metadata obs (obs_key obs) (select_urls products none none).1
                (select_urls products none none).2 now with
            | .ok r => .ok (some r)
            | .error e => .error e
  else .ok none

/-- `db.commit()`: the pending session rows join the table provided the
`unique=True` constraint on `obs_id` still holds; otherwise the transaction
fails (an `IntegrityError`) and the table keeps its committed contents. -/
def commit (committed : Store) (pending : List Record) : Except Unit Store :=
  if ((committed ++ pending).map (fun r => r.obs_id)).Nodup then .ok (committed ++ pending)
  else .error ()

/-- The observation loop with batched commits (lines 247-342): a commit
every 25 added rows and a final commit.  Returns the committed table
together with `.ok (added, skipped)` on success or `.error` when an
uncaught exception aborts the run (uncommitted session rows are lost). -/
def fetch_loop (remote : Remote) (existing : List RawVal) (now : Nat) :
    List RawObs → Store → List Record → Nat → Nat →
    Store × Except Unit (Nat × Nat)
  | [], committed, pending, added, skipped =>
    (match commit committed pending with
     | .ok s => (s, .ok (added, skipped))
     | .error _ => (committed, .error ()))
  | obs :: rest, committed, pending, added, skipped =>
    match row_action existing remote now obs with
    | .error _ => (committed, .error ())
    | .ok none => fetch_loop remote existing now rest committed pending added (skipped + 1)
    | .ok (some r) =>
      if (added + 1) % 25 = 0 then
        match commit committed (pending ++ [r]) with
        | .ok s => fetch_loop remote existing now rest s [] (added + 1) skipped
        | .error _ => (committed, .error ())
      else fetch_loop remote existing now rest committed (pending ++ [r]) (added + 1) skipped

/-- `fetch_month` (lines 200-345): one catalog query (a single attempt), the
early return on an empty table, the prefetch of already-stored ids
restricted to this table's keys (lines 239-245), then the loop. -/
def fetch_month (store : Store) (remote : Remote) (now : Nat) :
    Store × Except Unit (Nat × Nat) :=
  match remote.catalog 0 with
  | .error _ => (store, .error ())
  | .ok obs_table =>
    if obs_table.length = 0 then (store, .ok (0, 0))
    else
      let keys := obs_table.map obs_key
      let existing := (store.filter (fun r => decide (r.obs_id ∈ keys))).map
        (fun r => r.obs_id)
      fetch_loop remote existing now obs_table store [] 0 0

/-- A sequence of ingestion runs against possibly different remotes/clocks. -/
def run_many (runs : List (Remote × Nat)) (store : Store) : Store :=
  match runs with
  | [] => store
  | rn :: rest => run_many rest (fetch_month store rn.1 rn.2).1

/-! ### Progress tracking (lines 35-79, 352-425) -/

/-- The persisted progress document. -/
structure Progress where
  completed_months : List String
  total_observations : Nat
  deriving DecidableEq, Repr

/-- Zero-padded month rendering used in `get_all_months` (line 64). -/
def twoDigit (m : Nat) : String := if m < 10 then "0" ++ toString m else toString m

def monthKey (year m : Nat) : String := toString year ++ "-" ++ twoDigit m

/-- `get_all_months` (lines 53-66): January 2022 through the current
calendar month `(cy, cm)`, in chronological order; the inner `break` is a
`takeWhile`. -/
def get_all_months (cy cm : Nat) : List String :=
  (List.range (cy + 1 - 2022)).flatMap (fun i =>
    let year := 2022 + i
    (((List.range 12).map (fun j => j + 1)).takeWhile
      (fun m => !(year = cy && decide (cm < m)))).map (monthKey year))

/-- `get_next_month_to_process` (lines 69-79): scan the month sequence in
reverse and return the first month not yet completed. -/
def get_next_month_to_process (progress : Progress) (cy cm : Nat) : Option String :=
  ((get_all_months cy cm).reverse).find? (fun m => decide (m ∉ progress.completed_months))

/-- The completion update of `main` (lines 388-389): append the month unless
already present. -/
def mark_completed (p : Progress) (k : String) : Progress :=
  if k ∈ p.completed_months then p
  else { p with completed_months := p.completed_months ++ [k] }

/-- One invocation of `main` (lines 352-425): pick the next pending month;
on a successful fetch mark it completed and refresh the stored totals; on an
uncaught exception exit without touching the progress file. -/
def main_run (cy cm : Nat) (progress : Progress) (store : Store) (remote : Remote)
    (now : Nat) : Progress × Store :=
  match get_next_month_to_process progress cy cm with
  | none => (progress, store)
  | some m =>
    match fetch_month store remote now with
    | (s, .ok _) => ({ mark_completed progress m with total_observations := s.length }, s)
    | (s, .error _) => (progress, s)

/-- The retry policy as the spec words it (spec §4.1): up to `n` attempts,
returning the first success, failing only when all attempts fail.  This
definition follows the spec, not the source, and exists solely to be
compared against the source's single-attempt calls. -/
def specRetryCall {α : Type} : Nat → Nat → (Nat → Except Unit α) → Except Unit α
  | 0, _, _ => .error ()
  | n + 1, i, oracle =>
    match oracle i with
    | .ok v => .ok v
    | .error _ => specRetryCall n (i + 1) oracle

/-- The six spectrum-only columns are null whenever the row is not a
spectrum row. -/
def spectrumNullFields (r : Record) : Prop :=
  r.dataproduct_type ≠ .str "spectrum" →
    r.spectral_resolution = none ∧ r.wavelength_min = none ∧ r.wavelength_max = none ∧
    r.grating = none ∧ r.dispersion_axis = none ∧ r.slit_width = none

/-! ### Visibility-flag invariance machinery -/

/-- Rewrite the visibility flag of a candidate. -/
def set_rights (v : Option String) (p : RawProduct) : RawProduct :=
  { p with dataRights := v }

/-- A remote identical except every listed candidate carries visibility `v`. -/
def map_rights (v : Option String) (remote : Remote) : Remote :=
  ⟨remote.catalog, fun obs i => (remote.products obs i).map (List.map (set_rights v))⟩

/-! ### Totality side conditions for the row build -/

/-- A value on which Python `float(...)` succeeds whenever the guarded
coercion reaches it. -/
def floatOk (v : RawVal) : Prop := truthy v = true → ∃ q, pyFloat v = .ok q

def intOk (v : RawVal) : Prop := truthy v = true → ∃ n, pyInt v = .ok n

def upperOk (v : RawVal) : Prop := truthy v = true → ∃ s, pyUpper v = .ok s


/-! ### Concrete fixtures for counterexamples and witnesses -/

def obsA : RawObs := { obsid := .str "K1", dataproduct_type := .str "image" }

/-- A candidate whose visibility flag is not public but which carries a
preview-capable filename. -/
def prodPrivateJpg : RawProduct :=
  { productFilename := some "x.jpg", dataRights := some "EXCLUSIVE_ACCESS" }

def remoteA : Remote := ⟨fun _ => .ok [obsA], fun _ _ => .ok [prodPrivateJpg]⟩

/-- The record `fetch_month` derives from `obsA` / `prodPrivateJpg` at tick 7. -/
def recA : Record :=
  { obs_id := .str "K1"
    dataproduct_type := .str "image"
    preview_url := some "https://mast.stsci.edu/api/v0.1/Download/file?uri=mast:JWST/product/x.jpg"
    created_at := 7
    updated_at := 7 }

/-- A stored record whose key collides with the next fetched observation. -/
def recOld : Record :=
  { obs_id := .str "K1", target_name := .str "old", created_at := 1, updated_at := 1 }

def obsNew : RawObs :=
  { obsid := .str "K1", target_name := .str "new", dataproduct_type := .str "image" }

def remoteNew : Remote := ⟨fun _ => .ok [obsNew], fun _ _ => .ok [prodPrivateJpg]⟩

/-- A catalog endpoint that fails on attempts 0-3 and succeeds from attempt 4. -/
def flakyCatalog : Nat → Except Unit (List RawObs) :=
  fun i => if i < 4 then .error () else .ok [obsA]

def remoteFlaky : Remote := ⟨flakyCatalog, fun _ _ => .ok [prodPrivateJpg]⟩

/-- A remote whose every call fails. -/
def remoteDown : Remote := ⟨fun _ => .error (), fun _ _ => .error ()⟩

/-- A spectrum row carrying a negative wavelength bound. -/
def obsNegWl : RawObs := { em_min := .num (-1) }

/-- A row whose `s_ra` is a truthy but unparseable string. -/
def obsBadRa : RawObs := { obsid := .str "K2", s_ra := .str "abc" }

/-- A spectrum row whose `filters` value is a truthy number: the grating
probe calls `.upper()` on it and raises. -/
def obsNumFilters : RawObs :=
  { obsid := .str "K4", dataproduct_type := .str "spectrum", filters := .num 5 }

/-- A well-formed row with a malformed acquisition timestamp. -/
def obsBadTmin : RawObs :=
  { obsid := .str "K3", s_ra := .num 1, t_min := .str "junk", calib_level := .num 3,
    dataproduct_type := .str "image" }

/-- A row whose every numeric source field is present with value exactly 0. -/
def obsZero : RawObs :=
  { obsid := .str "Z", s_ra := .num 0, s_dec := .num 0, t_exptime := .num 0,
    calib_level := .num 0, t_min := .num 0, em_min := .num 0, em_max := .num 0,
    em_res_power := .num 0, dataproduct_type := .str "spectrum" }

/-- The record the row build derives from `obsZero` at tick 4. -/
def recZero : Record :=
  { obs_id := .str "Z", dataproduct_type := .str "spectrum",
    created_at := 4, updated_at := 4 }

/-! ### Structural lemmas about the embedding -/

theorem commit_ok {c : Store} {p : List Record} {s : Store}
    (h : commit c p = .ok s) :
    s = c ++ p ∧ ((c ++ p).map (fun r => r.obs_id)).Nodup := by
  unfold commit at h
  split at h
  · exact ⟨(Except.ok.inj h).symm, by assumption⟩
  · cases h

theorem commit_of_nodup {c : Store} {p : List Record}
    (h : ((c ++ p).map (fun r => r.obs_id)).Nodup) :
    commit c p = .ok (c ++ p) := by
  unfold commit
  rw [if_pos h]

theorem build_metadata_fields {obs : RawObs} {obsid : RawVal}
    {preview fits : Option String} {now : Nat} {r : Record}
    (h : build_metadata obs obsid preview fits now = .ok r) :
    r.obs_id = obsid ∧ r.created_at = now ∧ r.updated_at = now ∧
    spectrumNullFields r := by
  unfold build_metadata at h
  split at h
  · split at h
    · split at h
      · cases h
        refine ⟨rfl, rfl, rfl, fun hne => absurd ?_ hne⟩
        simpa [add_spectrum, base_record] using (by assumption :
          clean_value obs.dataproduct_type = .str "spectrum")
      · cases h
    · cases h
      exact ⟨rfl, rfl, rfl, fun _ => ⟨rfl, rfl, rfl, rfl, rfl, rfl⟩⟩
  · cases h

theorem build_metadata_eq {obs : RawObs} {obsid : RawVal}
    {preview fits : Option String} {now : Nat} {ra dec texp : Option Rat}
    {clv : Option Int}
    (hra : condFloat obs.s_ra = .ok ra) (hdec : condFloat obs.s_dec = .ok dec)
    (htexp : condFloat obs.t_exptime = .ok texp)
    (hclv : condInt obs.calib_level = .ok clv) :
    build_metadata obs obsid preview fits now =
      (if clean_value obs.dataproduct_type = .str "spectrum" then
        match extract_spectrum_metadata obs with
        | .ok sm =>
          .ok (add_spectrum (base_record obs obsid preview fits now ra dec texp clv) sm)
        | .error e => .error e
      else .ok (base_record obs obsid preview fits now ra dec texp clv)) := by
  unfold build_metadata
  rw [hra, hdec, htexp, hclv]

theorem row_action_ok_some {existing : List RawVal} {remote : Remote} {now : Nat}
    {obs : RawObs} {r : Record}
    (h : row_action existing remote now obs = .ok (some r)) :
    r.obs_id = obs_key obs ∧ r.created_at = now ∧ r.updated_at = now ∧
    truthy (obs_key obs) = true ∧ obs_key obs ∉ existing ∧ spectrumNullFields r := by
  unfold row_action at h
  split at h
  case isFalse => simp at h
  case isTrue htr =>
    split at h
    case isTrue hmem => simp at h
    case isFalse hmem =>
      split at h
      · simp at h
      · split at h
        · simp at h
        · split at h
          · simp at h
          · split at h
            case _ hb =>
              obtain ⟨h1, h2, h3, h4⟩ := build_metadata_fields hb
              cases h
              exact ⟨h1, h2, h3, htr, hmem, h4⟩
            case _ => simp at h

theorem row_action_skip_of_not_truthy {existing : List RawVal} {remote : Remote}
    {now : Nat} {obs : RawObs} (h : ¬ truthy (obs_key obs) = true) :
    row_action existing remote now obs = .ok none := by
  unfold row_action
  rw [if_neg h]

theorem row_action_skip_of_mem {existing : List RawVal} {remote : Remote}
    {now : Nat} {obs : RawObs} (h : obs_key obs ∈ existing) :
    row_action existing remote now obs = .ok none := by
  unfold row_action
  by_cases htr : truthy (obs_key obs) = true
  · rw [if_pos htr, if_pos h]
  · rw [if_neg htr]

/-- A row that is skipped for a reason other than the prefetched-id check is
skipped again under any other existing set and clock: those skip reasons
(listing failure, empty listing, no extractable URL) are deterministic. -/
theorem row_action_skip_stable {e1 e2 : List RawVal} {remote : Remote}
    {now1 now2 : Nat} {obs : RawObs}
    (h1 : obs_key obs ∉ e1) (h2 : obs_key obs ∉ e2)
    (h : row_action e1 remote now1 obs = .ok none) :
    row_action e2 remote now2 obs = .ok none := by
  unfold row_action at h ⊢
  by_cases htr : truthy (obs_key obs) = true
  case neg => rw [if_neg htr]
  case pos =>
    rw [if_pos htr] at h ⊢
    rw [if_neg h1] at h
    rw [if_neg h2]
    cases hp : remote.products obs 0 with
    | error e => simp only [hp]
    | ok products =>
      simp only [hp] at h ⊢
      by_cases hlen : products.length = 0
      case pos => rw [if_pos hlen]
      case neg =>
        rw [if_neg hlen] at h ⊢
        by_cases hurl : (!otruthy (select_urls products none none).1 &&
            !otruthy (select_urls products none none).2) = true
        case pos => rw [if_pos hurl]
        case neg =>
          rw [if_neg hurl] at h
          exfalso
          cases hb : build_metadata obs (obs_key obs) (select_urls products none none).1
              (select_urls products none none).2 now1 with
          | ok r => rw [hb] at h; simp at h
          | error e => rw [hb] at h; simp at h

theorem fetch_loop_nil {remote : Remote} {existing : List RawVal} {now : Nat}
    {c : Store} {p : List Record} {a sk : Nat} :
    fetch_loop remote existing now [] c p a sk =
      (match commit c p with
       | .ok s => (s, .ok (a, sk))
       | .error _ => (c, .error ())) := rfl

theorem fetch_loop_cons_err {remote : Remote} {existing : List RawVal} {now : Nat}
    {obs : RawObs} {rest : List RawObs} {c : Store} {p : List Record} {a sk : Nat}
    {e : Unit} (hra : row_action existing remote now obs = .error e) :
    fetch_loop remote existing now (obs :: rest) c p a sk = (c, .error ()) := by
  simp only [fetch_loop, hra]

theorem fetch_loop_cons_skip {remote : Remote} {existing : List RawVal} {now : Nat}
    {obs : RawObs} {rest : List RawObs} {c : Store} {p : List Record} {a sk : Nat}
    (hra : row_action existing remote now obs = .ok none) :
    fetch_loop remote existing now (obs :: rest) c p a sk =
      fetch_loop remote existing now rest c p a (sk + 1) := by
  simp only [fetch_loop, hra]

theorem fetch_loop_cons_add {remote : Remote} {existing : List RawVal} {now : Nat}
    {obs : RawObs} {rest : List RawObs} {c : Store} {p : List Record} {a sk : Nat}
    {r : Record} (hra : row_action existing remote now obs = .ok (some r)) :
    fetch_loop remote existing now (obs :: rest) c p a sk =
      (if (a + 1) % 25 = 0 then
        match commit c (p ++ [r]) with
        | .ok s => fetch_loop remote existing now rest s [] (a + 1) sk
        | .error _ => (c, .error ())
      else fetch_loop remote existing now rest c (p ++ [r]) (a + 1) sk) := by
  simp only [fetch_loop, hra]

/-- The loop only ever appends to the committed table, in every outcome. -/
theorem fetch_loop_extends (remote : Remote) (existing : List RawVal) (now : Nat) :
    ∀ (l : List RawObs) (c : Store) (p : List Record) (a sk : Nat),
    ∃ t, (fetch_loop remote existing now l c p a sk).1 = c ++ t := by
  intro l
  induction l with
  | nil =>
    intro c p a sk
    rw [fetch_loop_nil]
    cases hcp : commit c p with
    | ok s => exact ⟨p, by simp only [hcp]; exact (commit_ok hcp).1⟩
    | error e => exact ⟨[], by simp only [hcp, List.append_nil]⟩
  | cons obs rest ih =>
    intro c p a sk
    cases hra : row_action existing remote now obs with
    | error e => exact ⟨[], by rw [fetch_loop_cons_err hra]; simp⟩
    | ok o =>
      cases o with
      | none =>
        obtain ⟨t, ht⟩ := ih c p a (sk + 1)
        exact ⟨t, by rw [fetch_loop_cons_skip hra]; exact ht⟩
      | some r =>
        rw [fetch_loop_cons_add hra]
        by_cases h25 : (a + 1) % 25 = 0
        · rw [if_pos h25]
          cases hcp : commit c (p ++ [r]) with
          | ok s =>
            obtain ⟨t, ht⟩ := ih s [] (a + 1) sk
            refine ⟨p ++ [r] ++ t, ?_⟩
            rw [ht, (commit_ok hcp).1]
            simp [List.append_assoc]
          | error e => exact ⟨[], by simp⟩
        · rw [if_neg h25]
          exact ih c (p ++ [r]) (a + 1) sk

/-- On a successful loop, every pending row also reaches the table. -/
theorem fetch_loop_ok_extends (remote : Remote) (existing : List RawVal) (now : Nat) :
    ∀ (l : List RawObs) (c : Store) (p : List Record) (a sk : Nat) (z : Nat × Nat),
    (fetch_loop remote existing now l c p a sk).2 = .ok z →
    ∃ t, (fetch_loop remote existing now l c p a sk).1 = c ++ p ++ t := by
  intro l
  induction l with
  | nil =>
    intro c p a sk z hok
    rw [fetch_loop_nil] at hok ⊢
    cases hcp : commit c p with
    | ok s => simp only [hcp]; exact ⟨[], by simp [(commit_ok hcp).1]⟩
    | error e => rw [hcp] at hok; simp at hok
  | cons obs rest ih =>
    intro c p a sk z hok
    cases hra : row_action existing remote now obs with
    | error e => rw [fetch_loop_cons_err hra] at hok; simp at hok
    | ok o =>
      cases o with
      | none =>
        rw [fetch_loop_cons_skip hra] at hok ⊢
        exact ih c p a (sk + 1) z hok
      | some r =>
        rw [fetch_loop_cons_add hra] at hok ⊢
        by_cases h25 : (a + 1) % 25 = 0
        · rw [if_pos h25] at hok ⊢
          cases hcp : commit c (p ++ [r]) with
          | ok s =>
            rw [hcp] at hok
            obtain ⟨t, ht⟩ := ih s [] (a + 1) sk z hok
            refine ⟨[r] ++ t, ?_⟩
            show (fetch_loop remote existing now rest s [] (a + 1) sk).1 = _
            rw [ht, (commit_ok hcp).1]
            simp [List.append_assoc]
          | error e => rw [hcp] at hok; simp at hok
        · rw [if_neg h25] at hok ⊢
          obtain ⟨t, ht⟩ := ih c (p ++ [r]) (a + 1) sk z hok
          exact ⟨[r] ++ t, by rw [ht]; simp [List.append_assoc]⟩

/-- A successful loop leaves a table whose keys are distinct (the final
commit checked the uniqueness constraint). -/
theorem fetch_loop_ok_nodup (remote : Remote) (existing : List RawVal) (now : Nat) :
    ∀ (l : List RawObs) (c : Store) (p : List Record) (a sk : Nat) (z : Nat × Nat),
    (fetch_loop remote existing now l c p a sk).2 = .ok z →
    (((fetch_loop remote existing now l c p a sk).1).map (fun r => r.obs_id)).Nodup := by
  intro l
  induction l with
  | nil =>
    intro c p a sk z hok
    rw [fetch_loop_nil] at hok ⊢
    cases hcp : commit c p with
    | ok s =>
      simp only [hcp]
      rw [(commit_ok hcp).1]
      exact (commit_ok hcp).2
    | error e => rw [hcp] at hok; simp at hok
  | cons obs rest ih =>
    intro c p a sk z hok
    cases hra : row_action existing remote now obs with
    | error e => rw [fetch_loop_cons_err hra] at hok; simp at hok
    | ok o =>
      cases o with
      | none =>
        rw [fetch_loop_cons_skip hra] at hok ⊢
        exact ih c p a (sk + 1) z hok
      | some r =>
        rw [fetch_loop_cons_add hra] at hok ⊢
        by_cases h25 : (a + 1) % 25 = 0
        · rw [if_pos h25] at hok ⊢
          cases hcp : commit c (p ++ [r]) with
          | ok s =>
            rw [hcp] at hok
            show (((fetch_loop remote existing now rest s [] (a + 1) sk).1).map
              (fun r => r.obs_id)).Nodup
            exact ih s [] (a + 1) sk z hok
          | error e => rw [hcp] at hok; simp at hok
        · rw [if_neg h25] at hok ⊢
          exact ih c (p ++ [r]) (a + 1) sk z hok

/-- In every outcome, the loop leaves a table with distinct keys provided it
started from one: commits are the only way the table grows and each commit
rechecks the constraint. -/
theorem fetch_loop_nodup (remote : Remote) (existing : List RawVal) (now : Nat) :
    ∀ (l : List RawObs) (c : Store) (p : List Record) (a sk : Nat),
    ((c.map (fun r => r.obs_id)).Nodup) →
    (((fetch_loop remote existing now l c p a sk).1).map (fun r => r.obs_id)).Nodup := by
  intro l
  induction l with
  | nil =>
    intro c p a sk hc
    rw [fetch_loop_nil]
    cases hcp : commit c p with
    | ok s =>
      simp only [hcp]
      rw [(commit_ok hcp).1]
      exact (commit_ok hcp).2
    | error e => simpa using hc
  | cons obs rest ih =>
    intro c p a sk hc
    cases hra : row_action existing remote now obs with
    | error e => rw [fetch_loop_cons_err hra]; simpa using hc
    | ok o =>
      cases o with
      | none => rw [fetch_loop_cons_skip hra]; exact ih c p a (sk + 1) hc
      | some r =>
        rw [fetch_loop_cons_add hra]
        by_cases h25 : (a + 1) % 25 = 0
        · rw [if_pos h25]
          cases hcp : commit c (p ++ [r]) with
          | ok s =>
            have hs := commit_ok hcp
            show (((fetch_loop remote existing now rest s [] (a + 1) sk).1).map
              (fun r => r.obs_id)).Nodup
            exact ih s [] (a + 1) sk (hs.1 ▸ hs.2)
          | error e => simpa using hc
        · rw [if_neg h25]
          exact ih c (p ++ [r]) (a + 1) sk hc

/-- On a successful loop no row raised, and every added record reached the
table. -/
theorem fetch_loop_ok_rows (remote : Remote) (existing : List RawVal) (now : Nat) :
    ∀ (l : List RawObs) (c : Store) (p : List Record) (a sk : Nat) (z : Nat × Nat),
    (fetch_loop remote existing now l c p a sk).2 = .ok z →
    ∀ obs ∈ l,
      (∀ e, row_action existing remote now obs ≠ .error e) ∧
      (∀ r, row_action existing remote now obs = .ok (some r) →
        r ∈ (fetch_loop remote existing now l c p a sk).1) := by
  intro l
  induction l with
  | nil => intro c p a sk z _ obs hmem; cases hmem
  | cons obs0 rest ih =>
    intro c p a sk z hok obs hmem
    rcases List.mem_cons.mp hmem with heq | htail
    · subst heq
      cases hra : row_action existing remote now obs with
      | error e => rw [fetch_loop_cons_err hra] at hok; simp at hok
      | ok o =>
        cases o with
        | none =>
          refine ⟨fun e he => by simp at he, fun r hr => ?_⟩
          simp at hr
        | some r0 =>
          refine ⟨fun e he => by simp at he, fun r hr => ?_⟩
          have hrr : r0 = r := by simpa using hr
          subst hrr
          rw [fetch_loop_cons_add hra] at hok ⊢
          by_cases h25 : (a + 1) % 25 = 0
          · rw [if_pos h25] at hok ⊢
            cases hcp : commit c (p ++ [r0]) with
            | ok s =>
              rw [hcp] at hok
              obtain ⟨t, ht⟩ := fetch_loop_ok_extends remote existing now rest s []
                (a + 1) sk z hok
              show r0 ∈ (fetch_loop remote existing now rest s [] (a + 1) sk).1
              rw [ht, (commit_ok hcp).1]
              simp
            | error e => rw [hcp] at hok; simp at hok
          · rw [if_neg h25] at hok ⊢
            obtain ⟨t, ht⟩ := fetch_loop_ok_extends remote existing now rest c (p ++ [r0])
              (a + 1) sk z hok
            rw [ht]
            simp
    · cases hra : row_action existing remote now obs0 with
      | error e => rw [fetch_loop_cons_err hra] at hok; simp at hok
      | ok o =>
        cases o with
        | none =>
          rw [fetch_loop_cons_skip hra] at hok ⊢
          exact ih c p a (sk + 1) z hok obs htail
        | some r0 =>
          rw [fetch_loop_cons_add hra] at hok ⊢
          by_cases h25 : (a + 1) % 25 = 0
          · rw [if_pos h25] at hok ⊢
            cases hcp : commit c (p ++ [r0]) with
            | ok s =>
              rw [hcp] at hok
              show _ ∧ ∀ r, _ → r ∈ (fetch_loop remote existing now rest s [] (a + 1) sk).1
              exact ih s [] (a + 1) sk z hok obs htail
            | error e => rw [hcp] at hok; simp at hok
          · rw [if_neg h25] at hok ⊢
            exact ih c (p ++ [r0]) (a + 1) sk z hok obs htail

/-- Every record in the loop's final table either was already there or was
produced by some row of the processed list. -/
theorem fetch_loop_mem (remote : Remote) (existing : List RawVal) (now : Nat) :
    ∀ (l : List RawObs) (c : Store) (p : List Record) (a sk : Nat) (r : Record),
    r ∈ (fetch_loop remote existing now l c p a sk).1 →
    r ∈ c ++ p ∨ ∃ obs ∈ l, row_action existing remote now obs = .ok (some r) := by
  intro l
  induction l with
  | nil =>
    intro c p a sk r hr
    rw [fetch_loop_nil] at hr
    cases hcp : commit c p with
    | ok s =>
      rw [hcp] at hr
      exact Or.inl ((commit_ok hcp).1 ▸ hr)
    | error e =>
      rw [hcp] at hr
      exact Or.inl (List.mem_append_left _ hr)
  | cons obs0 rest ih =>
    intro c p a sk r hr
    cases hra : row_action existing remote now obs0 with
    | error e =>
      rw [fetch_loop_cons_err hra] at hr
      exact Or.inl (List.mem_append_left _ hr)
    | ok o =>
      cases o with
      | none =>
        rw [fetch_loop_cons_skip hra] at hr
        rcases ih c p a (sk + 1) r hr with hin | ⟨obs, hobs, hact⟩
        · exact Or.inl hin
        · exact Or.inr ⟨obs, List.mem_cons_of_mem _ hobs, hact⟩
      | some r0 =>
        rw [fetch_loop_cons_add hra] at hr
        by_cases h25 : (a + 1) % 25 = 0
        · rw [if_pos h25] at hr
          cases hcp : commit c (p ++ [r0]) with
          | ok s =>
            rw [hcp] at hr
            rcases ih s [] (a + 1) sk r hr with hin | ⟨obs, hobs, hact⟩
            · rw [List.append_nil] at hin
              rw [(commit_ok hcp).1] at hin
              rcases List.mem_append.mp hin with hcc | hpr
              · exact Or.inl (List.mem_append_left _ hcc)
              · rcases List.mem_append.mp hpr with hp | hr0
                · exact Or.inl (List.mem_append_right _ hp)
                · cases List.mem_singleton.mp hr0
                  exact Or.inr ⟨obs0, List.mem_cons_self _ _, hra⟩
            · exact Or.inr ⟨obs, List.mem_cons_of_mem _ hobs, hact⟩
          | error e =>
            rw [hcp] at hr
            exact Or.inl (List.mem_append_left _ hr)
        · rw [if_neg h25] at hr
          rcases ih c (p ++ [r0]) (a + 1) sk r hr with hin | ⟨obs, hobs, hact⟩
          · rcases List.mem_append.mp hin with hcc | hpr
            · exact Or.inl (List.mem_append_left _ hcc)
            · rcases List.mem_append.mp hpr with hp | hr0
              · exact Or.inl (List.mem_append_right _ hp)
              · cases List.mem_singleton.mp hr0
                exact Or.inr ⟨obs0, List.mem_cons_self _ _, hra⟩
          · exact Or.inr ⟨obs, List.mem_cons_of_mem _ hobs, hact⟩

/-- When every row of the list is a skip, the loop only performs the final
commit, which succeeds when the table satisfies the constraint. -/
theorem fetch_loop_all_skip (remote : Remote) (existing : List RawVal) (now : Nat) :
    ∀ (l : List RawObs) (c : Store) (p : List Record) (a sk : Nat),
    (∀ obs ∈ l, row_action existing remote now obs = .ok none) →
    ((c ++ p).map (fun r => r.obs_id)).Nodup →
    fetch_loop remote existing now l c p a sk = (c ++ p, .ok (a, sk + l.length)) := by
  intro l
  induction l with
  | nil =>
    intro c p a sk _ hnd
    rw [fetch_loop_nil, commit_of_nodup hnd]
    simp
  | cons obs0 rest ih =>
    intro c p a sk hall hnd
    rw [fetch_loop_cons_skip (hall obs0 (List.mem_cons_self _ _))]
    rw [ih c p a (sk + 1) (fun obs h => hall obs (List.mem_cons_of_mem _ h)) hnd]
    simp only [List.length_cons, Prod.mk.injEq, Except.ok.injEq, true_and]
    omega

theorem mem_existing_iff {store : Store} {keys : List RawVal} {x : RawVal} :
    (x ∈ (store.filter (fun r => decide (r.obs_id ∈ keys))).map (fun r => r.obs_id)) ↔
      (x ∈ store.map (fun r => r.obs_id) ∧ x ∈ keys) := by
  simp only [List.mem_map, List.mem_filter, decide_eq_true_eq]
  constructor
  · rintro ⟨r, ⟨hr, hk⟩, rfl⟩
    exact ⟨⟨r, hr, rfl⟩, hk⟩
  · rintro ⟨⟨r, hr, rfl⟩, hk⟩
    exact ⟨r, ⟨hr, hk⟩, rfl⟩

theorem fetch_month_catalog_err {store : Store} {remote : Remote} {now : Nat} {e : Unit}
    (h : remote.catalog 0 = .error e) :
    fetch_month store remote now = (store, .error ()) := by
  unfold fetch_month
  rw [h]

theorem fetch_month_empty {store : Store} {remote : Remote} {now : Nat}
    {tbl : List RawObs} (h : remote.catalog 0 = .ok tbl) (hlen : tbl.length = 0) :
    fetch_month store remote now = (store, .ok (0, 0)) := by
  unfold fetch_month
  rw [h]
  dsimp only
  rw [if_pos hlen]

theorem fetch_month_run {store : Store} {remote : Remote} {now : Nat}
    {tbl : List RawObs} (h : remote.catalog 0 = .ok tbl) (hlen : tbl.length ≠ 0) :
    fetch_month store remote now =
      fetch_loop remote
        ((store.filter (fun r => decide (r.obs_id ∈ tbl.map obs_key))).map
          (fun r => r.obs_id)) now tbl store [] 0 0 := by
  unfold fetch_month
  rw [h]
  dsimp only
  rw [if_neg hlen]

/-- `fetch_month` only appends: existing records are never modified or
deleted, in every outcome. -/
theorem fetch_month_extends (store : Store) (remote : Remote) (now : Nat) :
    ∃ t, (fetch_month store remote now).1 = store ++ t := by
  cases hc : remote.catalog 0 with
  | error e => exact ⟨[], by rw [fetch_month_catalog_err hc]; simp⟩
  | ok tbl =>
    by_cases hlen : tbl.length = 0
    · exact ⟨[], by rw [fetch_month_empty hc hlen]; simp⟩
    · rw [fetch_month_run hc hlen]
      exact fetch_loop_extends remote _ now tbl store [] 0 0

/-- Any record of the table after a run either predates the run or is a
fresh insert: its key was not previously stored, its audit timestamps are
the run's clock, and its spectrum-only fields obey the null rule. -/
theorem fetch_month_mem {store : Store} {remote : Remote} {now : Nat} {r : Record}
    (hr : r ∈ (fetch_month store remote now).1) :
    r ∈ store ∨
      (r.obs_id ∉ store.map (fun x => x.obs_id) ∧ r.created_at = now ∧
       r.updated_at = now ∧ spectrumNullFields r) := by
  cases hc : remote.catalog 0 with
  | error e =>
    rw [fetch_month_catalog_err hc] at hr
    exact Or.inl hr
  | ok tbl =>
    by_cases hlen : tbl.length = 0
    · rw [fetch_month_empty hc hlen] at hr
      exact Or.inl hr
    · rw [fetch_month_run hc hlen] at hr
      rcases fetch_loop_mem remote _ now tbl store [] 0 0 r hr with hin | ⟨obs, hobs, hact⟩
      · exact Or.inl (by simpa using hin)
      · obtain ⟨hid, hcr, hup, _, hnotex, hsp⟩ := row_action_ok_some hact
        refine Or.inr ⟨?_, hcr, hup, hsp⟩
        intro hmem
        exact hnotex (mem_existing_iff.mpr ⟨hid ▸ hmem,
          List.mem_map.mpr ⟨obs, hobs, rfl⟩⟩)

/-- A run that succeeds leaves a table on which an identical re-run is a
no-op: every row is skipped and the table is returned unchanged. -/
theorem fetch_month_second_run {store : Store} {remote : Remote} {now now' : Nat}
    {z : Nat × Nat} (h : (fetch_month store remote now).2 = .ok z) :
    (fetch_month (fetch_month store remote now).1 remote now').1 =
      (fetch_month store remote now).1 ∧
    ∃ z', (fetch_month (fetch_month store remote now).1 remote now').2 = .ok z' := by
  cases hc : remote.catalog 0 with
  | error e =>
    rw [fetch_month_catalog_err hc] at h
    simp at h
  | ok tbl =>
    by_cases hlen : tbl.length = 0
    · rw [fetch_month_empty hc hlen]
      rw [fetch_month_empty hc hlen]
      exact ⟨rfl, ⟨(0, 0), rfl⟩⟩
    · have hfm : fetch_month store remote now =
          fetch_loop remote
            ((store.filter (fun r => decide (r.obs_id ∈ tbl.map obs_key))).map
              (fun r => r.obs_id)) now tbl store [] 0 0 := fetch_month_run hc hlen
      rw [hfm] at h ⊢
      have hnd := fetch_loop_ok_nodup remote _ now tbl store [] 0 0 z h
      obtain ⟨t, ht⟩ := fetch_loop_extends remote _ now tbl store [] 0 0
      have hallskip : ∀ obs ∈ tbl,
          row_action ((((fetch_loop remote
              ((store.filter (fun r => decide (r.obs_id ∈ tbl.map obs_key))).map
                (fun r => r.obs_id)) now tbl store [] 0 0).1).filter
              (fun r => decide (r.obs_id ∈ tbl.map obs_key))).map (fun r => r.obs_id))
            remote now' obs = .ok none := by
        intro obs hobs
        by_cases htr : truthy (obs_key obs) = true
        · by_cases hmem : obs_key obs ∈
              ((fetch_loop remote
                ((store.filter (fun r => decide (r.obs_id ∈ tbl.map obs_key))).map
                  (fun r => r.obs_id)) now tbl store [] 0 0).1).map (fun r => r.obs_id)
          · exact row_action_skip_of_mem (mem_existing_iff.mpr
              ⟨hmem, List.mem_map.mpr ⟨obs, hobs, rfl⟩⟩)
          · have hne2 : obs_key obs ∉
                ((((fetch_loop remote
                  ((store.filter (fun r => decide (r.obs_id ∈ tbl.map obs_key))).map
                    (fun r => r.obs_id)) now tbl store [] 0 0).1).filter
                  (fun r => decide (r.obs_id ∈ tbl.map obs_key))).map (fun r => r.obs_id)) :=
              fun hx => hmem (mem_existing_iff.mp hx).1
            have hne1 : obs_key obs ∉
                ((store.filter (fun r => decide (r.obs_id ∈ tbl.map obs_key))).map
                  (fun r => r.obs_id)) := by
              intro hx
              apply hmem
              have hst := (mem_existing_iff.mp hx).1
              rw [ht]
              simp only [List.map_append, List.mem_append]
              exact Or.inl hst
            cases hra1 : row_action
                ((store.filter (fun r => decide (r.obs_id ∈ tbl.map obs_key))).map
                  (fun r => r.obs_id)) remote now obs with
            | error e =>
              exact absurd hra1
                ((fetch_loop_ok_rows remote _ now tbl store [] 0 0 z h obs hobs).1 e)
            | ok o =>
              cases o with
              | none => exact row_action_skip_stable hne1 hne2 hra1
              | some r =>
                exfalso
                apply hmem
                have hrS := (fetch_loop_ok_rows remote _ now tbl store [] 0 0 z
                  h obs hobs).2 r hra1
                have hid := (row_action_ok_some hra1).1
                exact List.mem_map.mpr ⟨r, hrS, hid⟩
        · exact row_action_skip_of_not_truthy htr
      have hnd2 : ((((fetch_loop remote
          ((store.filter (fun r => decide (r.obs_id ∈ tbl.map obs_key))).map
            (fun r => r.obs_id)) now tbl store [] 0 0).1) ++ ([] : List Record)).map
          (fun r => r.obs_id)).Nodup := by simpa using hnd
      rw [fetch_month_run hc hlen]
      rw [fetch_loop_all_skip remote _ now' tbl _ [] 0 0 hallskip hnd2]
      exact ⟨by simp, ⟨(0, 0 + tbl.length), rfl⟩⟩

theorem find?_split {α : Type} {p : α → Bool} {l : List α} {a : α}
    (h : l.find? p = some a) :
    ∃ pre post, l = pre ++ a :: post ∧ ∀ x ∈ pre, p x = false := by
  induction l with
  | nil => simp at h
  | cons c rest ih =>
    by_cases hc : p c = true
    · rw [List.find?_cons_of_pos _ hc] at h
      cases h
      exact ⟨[], rest, rfl, by simp⟩
    · rw [List.find?_cons_of_neg _ (by simpa using hc)] at h
      obtain ⟨pre, post, heq, hall⟩ := ih h
      refine ⟨c :: pre, post, by rw [heq]; rfl, ?_⟩
      intro x hx
      rcases List.mem_cons.mp hx with rfl | hx2
      · simpa using hc
      · exact hall x hx2

theorem mem_mark_completed (p : Progress) (k : String) :
    k ∈ (mark_completed p k).completed_months := by
  unfold mark_completed
  split
  · assumption
  · simp

theorem fetch_month_nodup {store : Store} {remote : Remote} {now : Nat}
    (h : (store.map (fun r => r.obs_id)).Nodup) :
    (((fetch_month store remote now).1).map (fun r => r.obs_id)).Nodup := by
  cases hc : remote.catalog 0 with
  | error e => rw [fetch_month_catalog_err hc]; exact h
  | ok tbl =>
    by_cases hlen : tbl.length = 0
    · rw [fetch_month_empty hc hlen]; exact h
    · rw [fetch_month_run hc hlen]
      exact fetch_loop_nodup remote _ now tbl store [] 0 0 h

theorem extract_preview_url_set_rights (v : Option String) (p : RawProduct) :
    extract_preview_url (set_rights v p) = extract_preview_url p := rfl

theorem extract_fits_url_set_rights (v : Option String) (p : RawProduct) :
    extract_fits_url (set_rights v p) = extract_fits_url p := rfl

theorem select_urls_set_rights (v : Option String) :
    ∀ (ps : List RawProduct) (p f : Option String),
    select_urls (List.map (set_rights v) ps) p f = select_urls ps p f := by
  intro ps
  induction ps with
  | nil => intro p f; rfl
  | cons prod rest ih =>
    intro p f
    simp only [List.map_cons, select_urls, extract_preview_url_set_rights,
      extract_fits_url_set_rights]
    rw [ih]

theorem row_action_map_rights (v : Option String) (existing : List RawVal)
    (remote : Remote) (now : Nat) (obs : RawObs) :
    row_action existing (map_rights v remote) now obs =
      row_action existing remote now obs := by
  unfold row_action
  by_cases htr : truthy (obs_key obs) = true
  case neg => rw [if_neg htr, if_neg htr]
  case pos =>
    rw [if_pos htr, if_pos htr]
    by_cases hmem : obs_key obs ∈ existing
    · rw [if_pos hmem, if_pos hmem]
    · rw [if_neg hmem, if_neg hmem]
      cases hp : remote.products obs 0 with
      | error e => simp [map_rights, hp, Except.map]
      | ok ps =>
        simp only [map_rights, hp, Except.map, List.length_map,
          select_urls_set_rights]

theorem fetch_loop_map_rights (v : Option String) (remote : Remote)
    (existing : List RawVal) (now : Nat) :
    ∀ (l : List RawObs) (c : Store) (p : List Record) (a sk : Nat),
    fetch_loop (map_rights v remote) existing now l c p a sk =
      fetch_loop remote existing now l c p a sk := by
  intro l
  induction l with
  | nil => intro c p a sk; rfl
  | cons obs rest ih =>
    intro c p a sk
    have hr := row_action_map_rights v existing remote now obs
    cases hra : row_action existing remote now obs with
    | error e =>
      rw [fetch_loop_cons_err hra, fetch_loop_cons_err (hra ▸ hr)]
    | ok o =>
      cases o with
      | none =>
        rw [fetch_loop_cons_skip hra, fetch_loop_cons_skip (hra ▸ hr)]
        exact ih c p a (sk + 1)
      | some r =>
        rw [fetch_loop_cons_add hra, fetch_loop_cons_add (hra ▸ hr)]
        by_cases h25 : (a + 1) % 25 = 0
        · rw [if_pos h25, if_pos h25]
          cases hcp : commit c (p ++ [r]) with
          | ok s => exact ih s [] (a + 1) sk
          | error e => rfl
        · rw [if_neg h25, if_neg h25]
          exact ih c (p ++ [r]) (a + 1) sk

theorem condFloat_ok {v : RawVal} (h : floatOk v) : ∃ o, condFloat v = .ok o := by
  unfold condFloat
  by_cases ht : truthy v = true
  · obtain ⟨q, hq⟩ := h ht
    rw [if_pos ht, hq]
    exact ⟨some q, rfl⟩
  · rw [if_neg ht]
    exact ⟨none, rfl⟩

theorem condInt_ok {v : RawVal} (h : intOk v) : ∃ o, condInt v = .ok o := by
  unfold condInt
  by_cases ht : truthy v = true
  · obtain ⟨n, hn⟩ := h ht
    rw [if_pos ht, hn]
    exact ⟨some n, rfl⟩
  · rw [if_neg ht]
    exact ⟨none, rfl⟩

theorem wl_field_ok {v : RawVal} (h : floatOk v) : ∃ o, wl_field v = .ok o := by
  unfold wl_field
  by_cases ht : truthy v = true
  · obtain ⟨q, hq⟩ := h ht
    rw [if_pos ht, hq]
    exact ⟨some (convert_wl q), rfl⟩
  · rw [if_neg ht]
    exact ⟨none, rfl⟩

theorem grating_field_ok {v : RawVal} (h : upperOk v) : ∃ o, grating_field v = .ok o := by
  unfold grating_field
  by_cases ht : truthy v = true
  · obtain ⟨s, hs⟩ := h ht
    rw [if_pos ht, hs]
    exact ⟨_, rfl⟩
  · rw [if_neg ht]
    exact ⟨none, rfl⟩

theorem extract_spectrum_ok {obs : RawObs}
    (h1 : floatOk obs.em_res_power) (h2 : floatOk obs.em_min)
    (h3 : floatOk obs.em_max) (h4 : upperOk (clean_value obs.filters)) :
    ∃ sm, extract_spectrum_metadata obs = .ok sm := by
  obtain ⟨o1, ho1⟩ := condFloat_ok h1
  obtain ⟨o2, ho2⟩ := wl_field_ok h2
  obtain ⟨o3, ho3⟩ := wl_field_ok h3
  obtain ⟨o4, ho4⟩ := grating_field_ok h4
  unfold extract_spectrum_metadata
  rw [ho1, ho2, ho3, ho4]
  exact ⟨_, rfl⟩

/-! ### Claim theorems -/

/-- C1, counterexample: an observation whose only candidate product carries a
non-public visibility flag is nevertheless stored (with a preview URL
derived from that very candidate), refuting the visibility-skip rule. -/
theorem c1_counterexample :
    (∀ p ∈ [prodPrivateJpg], ∀ s, p.dataRights = some s → strLower s ≠ "public") ∧
    remoteA.products obsA 0 = .ok [prodPrivateJpg] ∧
    fetch_month [] remoteA 7 = ([recA], .ok (1, 0)) := by
  refine ⟨by decide, rfl, by decide⟩

/-- C1, amended: the code applies no product-level visibility filter at all.
Preview/data selection, and therefore the entire ingestion outcome of a run,
are invariant under rewriting every candidate's visibility flag to an
arbitrary value; an observation is skipped only for having no listing, an
empty listing, or no extractable URL — never for visibility. -/
theorem c1_theorem (v : Option String) (store : Store) (remote : Remote) (now : Nat)
    (ps : List RawProduct) (p f : Option String) :
    select_urls (List.map (set_rights v) ps) p f = select_urls ps p f ∧
    fetch_month store (map_rights v remote) now = fetch_month store remote now := by
  refine ⟨select_urls_set_rights v ps p f, ?_⟩
  cases hc : remote.catalog 0 with
  | error e =>
    rw [fetch_month_catalog_err hc,
      fetch_month_catalog_err (show (map_rights v remote).catalog 0 = .error e from hc)]
  | ok tbl =>
    by_cases hlen : tbl.length = 0
    · rw [fetch_month_empty hc hlen,
        fetch_month_empty (show (map_rights v remote).catalog 0 = .ok tbl from hc) hlen]
    · rw [fetch_month_run hc hlen,
        fetch_month_run (show (map_rights v remote).catalog 0 = .ok tbl from hc) hlen]
      exact fetch_loop_map_rights v remote _ now tbl store [] 0 0

/-- C2, counterexample: with a catalog endpoint that fails on four attempts
and succeeds on the fifth, the five-attempt policy the spec describes
returns success, but the code — which issues exactly one attempt — aborts
the run. -/
theorem c2_counterexample :
    specRetryCall 5 0 flakyCatalog = .ok [obsA] ∧
    remoteFlaky.catalog = flakyCatalog ∧
    fetch_month [] remoteFlaky 0 = ([], .error ()) := by
  refine ⟨by decide, rfl, by decide⟩

/-- C2, amended: remote calls are made exactly once, with no retry policy
and no `RemoteUnavailable` type.  A catalog-query failure on its single
attempt aborts the run immediately, and the partition is left pending (the
progress document is unchanged); a product-listing failure only skips that
observation. -/
theorem c2_theorem (store : Store) (remote : Remote) (now : Nat) (e : Unit)
    (h : remote.catalog 0 = .error e) :
    fetch_month store remote now = (store, .error ()) ∧
    (∀ cy cm (p : Progress), (main_run cy cm p store remote now).1 = p) ∧
    (∀ (existing : List RawVal) (obs : RawObs) (e2 : Unit),
      remote.products obs 0 = .error e2 →
      row_action existing remote now obs = .ok none) := by
  refine ⟨fetch_month_catalog_err h, ?_, ?_⟩
  · intro cy cm p
    unfold main_run
    cases hn : get_next_month_to_process p cy cm with
    | none => rfl
    | some m => simp only [fetch_month_catalog_err h]
  · intro existing obs e2 hp
    unfold row_action
    by_cases htr : truthy (obs_key obs) = true
    · rw [if_pos htr]
      by_cases hmem : obs_key obs ∈ existing
      · rw [if_pos hmem]
      · rw [if_neg hmem, hp]
    · rw [if_neg htr]

/-- C2, witness: a dead remote makes the run abort with the table unchanged
and the progress document untouched. -/
theorem c2_witness :
    fetch_month [] remoteDown 3 = ([], .error ()) ∧
    (main_run 2022 2 ⟨[], 0⟩ [] remoteDown 3).1 = (⟨[], 0⟩ : Progress) := by
  have h := c2_theorem [] remoteDown 3 () rfl
  exact ⟨h.1, h.2.1 2022 2 ⟨[], 0⟩⟩

/-- C3, counterexample: re-ingesting an already-stored `external_id` leaves
the stored record byte-identical — `target_name` keeps its old value and
`updated_at` keeps its old tick — although the fetched row carries a new
target name, refuting full-replace upsert semantics. -/
theorem c3_counterexample :
    recOld.obs_id = obs_key obsNew ∧
    fetch_month [recOld] remoteNew 9 = ([recOld], .ok (0, 1)) ∧
    recOld.target_name = .str "old" ∧ clean_value obsNew.target_name = .str "new" ∧
    recOld.updated_at = 1 := by
  refine ⟨by decide, by decide, rfl, rfl, rfl⟩

/-- C3, amended: ingestion is insert-only.  A run never modifies or deletes
an existing record (the table only grows by appending), an observation whose
`external_id` is already stored is skipped, and every freshly inserted
record carries a key not previously stored and both audit timestamps set to
the run's clock. -/
theorem c3_theorem (store : Store) (remote : Remote) (now : Nat) :
    (∃ t, (fetch_month store remote now).1 = store ++ t) ∧
    (∀ r ∈ (fetch_month store remote now).1, r ∉ store →
      r.obs_id ∉ store.map (fun x => x.obs_id) ∧
      r.created_at = now ∧ r.updated_at = now) := by
  refine ⟨fetch_month_extends store remote now, ?_⟩
  intro r hr hnew
  rcases fetch_month_mem hr with hin | ⟨h1, h2, h3, _⟩
  · exact absurd hin hnew
  · exact ⟨h1, h2, h3⟩

/-- C3, witness: the record inserted by the `remoteA` run is new and carries
the run's clock in both audit fields. -/
theorem c3_witness :
    recA.obs_id ∉ ([] : Store).map (fun x => x.obs_id) ∧
    recA.created_at = 7 ∧ recA.updated_at = 7 :=
  (c3_theorem [] remoteA 7).2 recA (by decide) (by simp)

/-- C4: ingesting the same partition twice against the same remote responses
yields a stored state identical to ingesting it once — the second run skips
every row and returns the table unchanged (and succeeds). -/
theorem c4_theorem (store : Store) (remote : Remote) (now now2 : Nat) (z : Nat × Nat)
    (h : (fetch_month store remote now).2 = .ok z) :
    (fetch_month (fetch_month store remote now).1 remote now2).1 =
      (fetch_month store remote now).1 ∧
    ∃ z2, (fetch_month (fetch_month store remote now).1 remote now2).2 = .ok z2 :=
  fetch_month_second_run h

/-- C4, witness: running the `remoteA` ingestion twice stores exactly what
one run stores. -/
theorem c4_witness :
    (fetch_month (fetch_month [] remoteA 7).1 remoteA 8).1 =
      (fetch_month [] remoteA 7).1 :=
  (c4_theorem [] remoteA 7 8 (1, 0) (by decide)).1

/-- C5: after any sequence of ingestion runs starting from a table with
distinct keys, no two stored records share an `obs_id`, and the record count
equals the number of distinct stored keys (so it never exceeds the number of
distinct keys ever ingested). -/
theorem c5_theorem (runs : List (Remote × Nat)) (store : Store)
    (h : (store.map (fun r => r.obs_id)).Nodup) :
    ((run_many runs store).map (fun r => r.obs_id)).Nodup ∧
    (run_many runs store).length =
      (((run_many runs store).map (fun r => r.obs_id)).dedup).length := by
  have hnd : ∀ (s : Store), ((s.map (fun r => r.obs_id)).Nodup) →
      ((run_many runs s).map (fun r => r.obs_id)).Nodup := by
    induction runs with
    | nil => intro s hs; exact hs
    | cons rn rest ih => intro s hs; exact ih _ (fetch_month_nodup hs)
  refine ⟨hnd store h, ?_⟩
  rw [List.dedup_eq_self.mpr (hnd store h), List.length_map]

/-- C5, witness: one concrete run from the empty table leaves distinct keys
and a count matching the distinct keys. -/
theorem c5_witness :
    ((run_many [(remoteA, 7)] []).map (fun r => r.obs_id)).Nodup ∧
    (run_many [(remoteA, 7)] []).length =
      (((run_many [(remoteA, 7)] []).map (fun r => r.obs_id)).dedup).length :=
  c5_theorem [(remoteA, 7)] [] (by decide)

/-- C6: partition selection scans the full month sequence (January 2022
through the current month) in reverse chronological order and returns the
first month not in the completed set — it returns `none` exactly when all
months are completed, any month it returns is an uncompleted month of the
sequence preceded (in the reverse scan) only by completed months, and a
month just marked completed is never returned again. -/
theorem c6_theorem (cy cm : Nat) (p : Progress) :
    (get_next_month_to_process p cy cm = none ↔
      ∀ m ∈ get_all_months cy cm, m ∈ p.completed_months) ∧
    (∀ m, get_next_month_to_process p cy cm = some m →
      m ∈ get_all_months cy cm ∧ m ∉ p.completed_months ∧
      ∃ pre post, (get_all_months cy cm).reverse = pre ++ m :: post ∧
        ∀ x ∈ pre, x ∈ p.completed_months) ∧
    (∀ k, get_next_month_to_process (mark_completed p k) cy cm ≠ some k) := by
  refine ⟨?_, ?_, ?_⟩
  · unfold get_next_month_to_process
    rw [List.find?_eq_none]
    constructor
    · intro hall m hm
      have hx := hall m (List.mem_reverse.mpr hm)
      simpa using hx
    · intro hall m hm
      have hx := hall m (List.mem_reverse.mp hm)
      simpa using hx
  · intro m hm
    unfold get_next_month_to_process at hm
    have hp := List.find?_some hm
    have hmem := List.mem_of_find?_eq_some hm
    refine ⟨List.mem_reverse.mp hmem, by simpa using hp, ?_⟩
    obtain ⟨pre, post, heq, hall⟩ := find?_split hm
    refine ⟨pre, post, heq, ?_⟩
    intro x hx
    have hfx := hall x hx
    simpa using hfx
  · intro k hk
    unfold get_next_month_to_process at hk
    have hp := List.find?_some hk
    have hnot : k ∉ (mark_completed p k).completed_months := by simpa using hp
    exact hnot (mem_mark_completed p k)

/-- C6, witness: with only 2022-02 completed out of the first two months of
2022, the next pending month is 2022-01 (the most recent uncompleted), and a
month just marked completed is not returned. -/
theorem c6_witness :
    ("2022-01" ∈ get_all_months 2022 2 ∧
      "2022-01" ∉ (Progress.mk ["2022-02"] 0).completed_months ∧
      ∃ pre post, (get_all_months 2022 2).reverse = pre ++ "2022-01" :: post ∧
        ∀ x ∈ pre, x ∈ (Progress.mk ["2022-02"] 0).completed_months) ∧
    get_next_month_to_process (mark_completed ⟨["2022-02"], 0⟩ "2022-03") 2022 2 ≠
      some "2022-03" :=
  ⟨(c6_theorem 2022 2 ⟨["2022-02"], 0⟩).2.1 "2022-01" (by decide),
    (c6_theorem 2022 2 ⟨["2022-02"], 0⟩).2.2 "2022-03"⟩

/-- C7, counterexample: the code rescales by a signed comparison, not by
magnitude.  For the bound −1 (magnitude 1, far above 0.001) the claim
predicts the value is kept, but the code multiplies it by 1e6. -/
theorem c7_counterexample :
    ¬ (|(-1 : Rat)| < 0.001) ∧
    extract_spectrum_metadata obsNegWl = .ok { wavelength_min := some (-1000000) } ∧
    ((-1000000 : Rat)) ≠ -1 := by
  refine ⟨by norm_num, ?_, by norm_num⟩
  unfold extract_spectrum_metadata obsNegWl
  norm_num [condFloat, wl_field, grating_field, truthy, pyFloat, clean_value, convert_wl]

/-- C7, amended: each supplied wavelength bound is rescaled by 1e6 exactly
when its (signed) value is below 0.001, else kept unchanged, and the same
rule is applied independently to `em_min` and `em_max`. -/
theorem c7_theorem (obs : RawObs) (qmin qmax : Rat)
    (hmin : obs.em_min = .num qmin) (hmax : obs.em_max = .num qmax)
    (hmin0 : qmin ≠ 0) (hmax0 : qmax ≠ 0)
    (hres : obs.em_res_power = .null) (hfil : obs.filters = .null) :
    extract_spectrum_metadata obs = .ok
      { spectral_resolution := none
        wavelength_min := some (if qmin < 0.001 then qmin * 1000000 else qmin)
        wavelength_max := some (if qmax < 0.001 then qmax * 1000000 else qmax)
        grating := none } := by
  unfold extract_spectrum_metadata
  rw [hres, hmin, hmax, hfil]
  simp [condFloat, wl_field, grating_field, truthy, pyFloat, clean_value, convert_wl,
    hmin0, hmax0]

/-- C7, witness: the spec's own examples under the amended rule — the bound
0.000002 becomes 2 microns and 3.5 stays 3.5. -/
theorem c7_witness :
    extract_spectrum_metadata { em_min := .num (2 / 1000000), em_max := .num (7 / 2) } =
      .ok { spectral_resolution := none
            wavelength_min := some (if (2 / 1000000 : Rat) < 0.001 then
              (2 / 1000000 : Rat) * 1000000 else 2 / 1000000)
            wavelength_max := some (if (7 / 2 : Rat) < 0.001 then
              (7 / 2 : Rat) * 1000000 else 7 / 2)
            grating := none } ∧
    (if (2 / 1000000 : Rat) < 0.001 then (2 / 1000000 : Rat) * 1000000
      else 2 / 1000000) = 2 ∧
    (if (7 / 2 : Rat) < 0.001 then (7 / 2 : Rat) * 1000000 else 7 / 2) = 7 / 2 := by
  refine ⟨c7_theorem _ _ _ rfl rfl (by norm_num) (by norm_num) rfl rfl,
    by norm_num, by norm_num⟩

/-- C8, counterexample: a truthy but unparseable numeric string in `s_ra`
makes the row build raise (the `float` coercion is not caught), refuting
"normalization never raises; worst case is null"; likewise, on a spectrum
row a truthy non-string `filters` value makes the grating probe's
`.upper()` call raise. -/
theorem c8_counterexample :
    truthy obsBadRa.s_ra = true ∧
    build_metadata obsBadRa (.str "K2") none none 0 = .error () ∧
    truthy (clean_value obsNumFilters.filters) = true ∧
    build_metadata obsNumFilters (.str "K4") none none 0 = .error () := by
  refine ⟨by decide, by decide, by decide, by decide⟩

/-- C8, amended: masked/sentinel values coalesce to null and a malformed
acquisition timestamp coalesces to a null date without raising, but the
`float`/`int` coercions are only total on fields whose truthy values
actually parse, and on spectrum rows the grating probe additionally needs
the cleaned `filters` value, when truthy, to be a string (its `.upper()`
must succeed): under exactly those side conditions the row build succeeds,
with no condition at all on the timestamp field. -/
theorem c8_theorem (obs : RawObs) (obsid : RawVal) (preview fits : Option String)
    (now : Nat) (h1 : floatOk obs.s_ra) (h2 : floatOk obs.s_dec)
    (h3 : floatOk obs.t_exptime) (h4 : intOk obs.calib_level)
    (h5 : clean_value obs.dataproduct_type = .str "spectrum" →
      floatOk obs.em_res_power ∧ floatOk obs.em_min ∧ floatOk obs.em_max ∧
      upperOk (clean_value obs.filters)) :
    ∃ r, build_metadata obs obsid preview fits now = .ok r ∧
      (∀ e, pyFloat obs.t_min = .error e → r.observation_date = none) := by
  obtain ⟨ra, hra⟩ := condFloat_ok h1
  obtain ⟨dec, hdec⟩ := condFloat_ok h2
  obtain ⟨texp, htexp⟩ := condFloat_ok h3
  obtain ⟨clv, hclv⟩ := condInt_ok h4
  rw [build_metadata_eq hra hdec htexp hclv]
  by_cases hdpt : clean_value obs.dataproduct_type = .str "spectrum"
  · rw [if_pos hdpt]
    obtain ⟨ha, hb2, hc2, hd2⟩ := h5 hdpt
    obtain ⟨sm, hsm⟩ := extract_spectrum_ok ha hb2 hc2 hd2
    rw [hsm]
    refine ⟨_, rfl, ?_⟩
    intro e he
    show (add_spectrum (base_record obs obsid preview fits now ra dec texp clv)
      sm).observation_date = none
    simp [add_spectrum, base_record, parse_obs_date, he]
  · rw [if_neg hdpt]
    refine ⟨_, rfl, ?_⟩
    intro e he
    show (base_record obs obsid preview fits now ra dec texp clv).observation_date = none
    simp [base_record, parse_obs_date, he]

/-- C8, witness: a row with a malformed timestamp but parseable numeric
fields builds successfully with a null observation date. -/
theorem c8_witness :
    ∃ r, build_metadata obsBadTmin (.str "K3") none none 2 = .ok r ∧
      (∀ e, pyFloat obsBadTmin.t_min = .error e → r.observation_date = none) := by
  refine c8_theorem obsBadTmin (.str "K3") none none 2 ?_ ?_ ?_ ?_ ?_
  · intro ht; exact ⟨1, rfl⟩
  · intro ht; exact absurd ht (by decide)
  · intro ht; exact absurd ht (by decide)
  · intro ht; exact ⟨pyTrunc 3, rfl⟩
  · intro ht; exact absurd ht (by decide)

/-- C9: the null rule for spectrum-only fields is an invariant of ingestion:
if every stored record with a non-spectrum `dataproduct_type` has all six
spectrum-only fields null, the same holds after any run (fresh inserts
satisfy the rule by construction, stored records are untouched). -/
theorem c9_theorem (store : Store) (remote : Remote) (now : Nat)
    (h : ∀ r ∈ store, spectrumNullFields r) :
    ∀ r ∈ (fetch_month store remote now).1, spectrumNullFields r := by
  intro r hr
  rcases fetch_month_mem hr with hin | ⟨_, _, _, hsp⟩
  · exact h r hin
  · exact hsp

/-- C9, witness: the record inserted by the concrete `remoteA` run obeys the
spectrum-null rule. -/
theorem c9_witness : spectrumNullFields recA :=
  c9_theorem [] remoteA 7 (by simp) recA (by decide)

theorem condFloat_zero : condFloat (.num 0) = .ok none := by
  unfold condFloat
  norm_num [truthy]

theorem condInt_zero : condInt (.num 0) = .ok none := by
  unfold condInt
  norm_num [truthy]

theorem wl_field_zero : wl_field (.num 0) = .ok none := by
  unfold wl_field
  norm_num [truthy]

theorem parse_obs_date_zero : parse_obs_date (.num 0) = none := by
  unfold parse_obs_date
  norm_num [truthy]

/-- C10: the presence checks for the numeric source fields use Python
truthiness, so a field present with value exactly 0 is treated as missing:
whenever the row build succeeds, a zero in `s_ra`, `s_dec`, `t_exptime`,
`calib_level`, `t_min`, `em_min`, `em_max` or `em_res_power` stores null in
the corresponding record field. -/
theorem c10_theorem (obs : RawObs) (obsid : RawVal) (preview fits : Option String)
    (now : Nat) (r : Record)
    (h : build_metadata obs obsid preview fits now = .ok r) :
    (obs.s_ra = .num 0 → r.ra = none) ∧
    (obs.s_dec = .num 0 → r.dec = none) ∧
    (obs.t_exptime = .num 0 → r.exposure_time = none) ∧
    (obs.calib_level = .num 0 → r.calib_level = none) ∧
    (obs.t_min = .num 0 → r.observation_date = none) ∧
    (obs.em_min = .num 0 → r.wavelength_min = none) ∧
    (obs.em_max = .num 0 → r.wavelength_max = none) ∧
    (obs.em_res_power = .num 0 → r.spectral_resolution = none) := by
  unfold build_metadata at h
  split at h
  case _ ra dec texp clv hra hdec htexp hclv =>
    split at h
    case isTrue hdpt =>
      cases hsm : extract_spectrum_metadata obs with
      | error e => rw [hsm] at h; cases h
      | ok sm =>
        rw [hsm] at h
        cases h
        unfold extract_spectrum_metadata at hsm
        split at hsm
        case _ sr wmin wmax g hsr hwmin hwmax hg =>
          cases hsm
          refine ⟨?_, ?_, ?_, ?_, ?_, ?_, ?_, ?_⟩
          · intro heq; rw [heq, condFloat_zero] at hra; cases hra; rfl
          · intro heq; rw [heq, condFloat_zero] at hdec; cases hdec; rfl
          · intro heq; rw [heq, condFloat_zero] at htexp; cases htexp; rfl
          · intro heq; rw [heq, condInt_zero] at hclv; cases hclv; rfl
          · intro heq
            show parse_obs_date obs.t_min = none
            rw [heq, parse_obs_date_zero]
          · intro heq; rw [heq, wl_field_zero] at hwmin; cases hwmin; rfl
          · intro heq; rw [heq, wl_field_zero] at hwmax; cases hwmax; rfl
          · intro heq; rw [heq, condFloat_zero] at hsr; cases hsr; rfl
        case _ => cases hsm
    case isFalse hdpt =>
      cases h
      refine ⟨?_, ?_, ?_, ?_, ?_, ?_, ?_, ?_⟩
      · intro heq; rw [heq, condFloat_zero] at hra; cases hra; rfl
      · intro heq; rw [heq, condFloat_zero] at hdec; cases hdec; rfl
      · intro heq; rw [heq, condFloat_zero] at htexp; cases htexp; rfl
      · intro heq; rw [heq, condInt_zero] at hclv; cases hclv; rfl
      · intro heq
        show parse_obs_date obs.t_min = none
        rw [heq, parse_obs_date_zero]
      · intro heq; rfl
      · intro heq; rfl
      · intro heq; rfl
  case _ => cases h

/-- C10, witness: the all-zero spectrum row builds to a record whose
corresponding fields are all null. -/
theorem c10_witness :
    recZero.ra = none ∧ recZero.observation_date = none ∧
    recZero.wavelength_min = none ∧ recZero.spectral_resolution = none ∧
    recZero.calib_level = none := by
  have h := c10_theorem obsZero (.str "Z") none none 4 recZero (by decide)
  exact ⟨h.1 rfl, h.2.2.2.2.1 rfl, h.2.2.2.2.2.1 rfl, h.2.2.2.2.2.2.2 rfl,
    h.2.2.2.1 rfl⟩
